import Mathlib

set_option maxRecDepth 100000

/-!
# Verification of the `hud` pipeline dashboard (src/lib/index.ts)

Shallow embedding of the dashboard's core logic:
strings stand for JavaScript strings, `Option` for possibly-`undefined`
fields, a deduplicated insertion-ordered `List String` for a JS `Set`,
and `Nat` timestamps for `Date` values.  The relative-time formatter
(`date-fns/formatDistance`) and the chalk color wrappers are external
pure functions; chalk is embedded by its ANSI escape output and the
formatter is passed as an explicit `humanize` argument.
-/

/-- JS `String.prototype.padEnd(n, c)`: pad on the right up to length `n`. -/
def padEnd (s : String) (n : Nat) (c : Char) : String :=
  s ++ String.mk (List.replicate (n - s.length) c)

/-- chalk.bgRed: wraps a string in the red-background ANSI escapes. -/
def bgRed (s : String) : String := "\x1b[41m" ++ s ++ "\x1b[49m"

/-- chalk.bgGreen: wraps a string in the green-background ANSI escapes. -/
def bgGreen (s : String) : String := "\x1b[42m" ++ s ++ "\x1b[49m"

/-- chalk.bgBlue: wraps a string in the blue-background ANSI escapes. -/
def bgBlue (s : String) : String := "\x1b[44m" ++ s ++ "\x1b[49m"

/-- One insertion step of a JS `Set` (insertion-ordered, deduplicated). -/
def jsSetInsert (l : List String) (x : String) : List String :=
  if x ∈ l then l else l ++ [x]

/-- `new Set(xs)`: deduplicated list preserving first-occurrence order. -/
def jsSetOfList (xs : List String) : List String :=
  xs.foldl jsSetInsert []

/--
`colorizedStatus` from src/lib/index.ts, on the JS `Set` of statuses
(modelled as its deduplicated element list in insertion order):
`Failed` wins, then (after deleting `Succeeded`) an empty set yields
`Succeeded`, otherwise the first remaining value is shown.
-/
def colorizedStatus (statuses : List String) : String :=
  if "Failed" ∈ statuses then bgRed (padEnd "Failed" 10 ' ')
  else
    let remaining := statuses.erase "Succeeded"
    if remaining.isEmpty then bgGreen (padEnd "Succeeded" 10 ' ')
    else bgBlue (padEnd (remaining.headD "") 10 ' ')

/-- `ActionExecution` of the remote API: optional status, optional
`lastStatusChange` timestamp (a `Date`, modelled as `Nat`). -/
structure ActionExecution where
  status : Option String
  lastStatusChange : Option Nat
deriving DecidableEq, Repr

/-- `ActionState` of the remote API. -/
structure ActionState where
  actionName : Option String
  latestExecution : Option ActionExecution
  revisionUrl : Option String
  entityUrl : Option String
deriving DecidableEq, Repr

/-- `StageExecution` of the remote API: its `status` field is required. -/
structure StageExecution where
  status : String
deriving DecidableEq, Repr

/-- `StageState` of the remote API. -/
structure StageState where
  stageName : Option String
  latestExecution : Option StageExecution
  actionStates : Option (List ActionState)
deriving DecidableEq, Repr

/-- `GetPipelineStateOutput` of the remote API: one pipeline snapshot. -/
structure GetPipelineStateOutput where
  pipelineName : Option String
  stageStates : Option (List StageState)
deriving DecidableEq, Repr

/-- Mapped action record built in `fetchPipelines`'s second `.then`. -/
structure MappedAction where
  actionName : Option String
  status : Option String
  lastRun : Option String
  source : Option String
deriving DecidableEq, Repr

/-- Mapped stage record built in `fetchPipelines`'s second `.then`;
`status` is `stage.latestExecution?.status`. -/
structure MappedStage where
  stageName : Option String
  status : Option String
  actions : Option (List MappedAction)
deriving DecidableEq, Repr

/-- Mapped pipeline record built in `fetchPipelines`'s second `.then`. -/
structure MappedPipeline where
  pipelineName : Option String
  stages : Option (List MappedStage)
deriving DecidableEq, Repr

/-- `action.latestExecution?.lastStatusChange && humanizeTime(...)`:
`undefined` when the timestamp is absent, otherwise the humanized time. -/
def mapAction (humanize : Nat → String) (a : ActionState) : MappedAction :=
  { actionName := a.actionName
    status := a.latestExecution.bind (·.status)
    lastRun := (a.latestExecution.bind (·.lastStatusChange)).map humanize
    source := a.revisionUrl }

/-- One stage of the mapped statistics: `stage.latestExecution?.status`
and the mapped actions. -/
def mapStage (humanize : Nat → String) (st : StageState) : MappedStage :=
  { stageName := st.stageName
    status := st.latestExecution.map (·.status)
    actions := (st.actionStates).map (List.map (mapAction humanize)) }

/-- The per-pipeline mapping of `fetchPipelines`'s second `.then`. -/
def mapPipeline (humanize : Nat → String) (p : GetPipelineStateOutput) :
    MappedPipeline :=
  { pipelineName := p.pipelineName
    stages := (p.stageStates).map (List.map (mapStage humanize)) }

/--
The summary row built in `fetchPipelines`'s third `.then`:
an empty row when `stages` is absent, otherwise the name truncated by
`slice(0, 30)` and the colorized status of the set of stage statuses
(`s.status ?? ""`).
-/
def summaryRow (p : MappedPipeline) : List String :=
  match p.stages with
  | none => []
  | some stages =>
    [(p.pipelineName.map (fun n => n.take 30)).getD "",
     colorizedStatus (jsSetOfList (stages.map (fun s => s.status.getD "")))]

/-- The data published to the summary table: one row per fetched pipeline. -/
def statsRows (humanize : Nat → String)
    (ps : List GetPipelineStateOutput) : List (List String) :=
  ps.map (fun p => summaryRow (mapPipeline humanize p))

/-- The status string of a stage as it enters the aggregation set:
`stage.latestExecution?.status ?? ""`. -/
def stageStatusStr (st : StageState) : String :=
  (st.latestExecution.map (·.status)).getD ""

/-- Membership in a JS set after one insertion. -/
theorem mem_jsSetInsert {a x : String} {l : List String} :
    a ∈ jsSetInsert l x ↔ a ∈ l ∨ a = x := by
  unfold jsSetInsert
  by_cases hx : x ∈ l
  · simp only [if_pos hx]
    constructor
    · exact Or.inl
    · rintro (h | rfl) <;> [exact h; exact hx]
  · simp [if_neg hx]

/-- Membership in the folded JS set, generalized over the accumulator. -/
theorem mem_foldl_jsSetInsert {a : String} :
    ∀ (xs acc : List String),
      a ∈ xs.foldl jsSetInsert acc ↔ a ∈ acc ∨ a ∈ xs := by
  intro xs
  induction xs with
  | nil => simp [List.foldl]
  | cons x xs ih =>
    intro acc
    simp only [List.foldl, ih, mem_jsSetInsert, List.mem_cons]
    tauto

/-- A JS set built from a list has exactly the list's elements. -/
theorem mem_jsSetOfList {a : String} {xs : List String} :
    a ∈ jsSetOfList xs ↔ a ∈ xs := by
  unfold jsSetOfList
  simp [mem_foldl_jsSetInsert]

/-- Inserting into a duplicate-free JS set keeps it duplicate-free. -/
theorem nodup_jsSetInsert {l : List String} (h : l.Nodup) (x : String) :
    (jsSetInsert l x).Nodup := by
  unfold jsSetInsert
  by_cases hx : x ∈ l
  · simpa [if_pos hx]
  · simp only [if_neg hx]
    simpa [List.nodup_append] using ⟨h, fun hmem => hx hmem⟩

/-- The folded JS set is duplicate-free for any duplicate-free accumulator. -/
theorem nodup_foldl_jsSetInsert :
    ∀ (xs acc : List String), acc.Nodup → (xs.foldl jsSetInsert acc).Nodup := by
  intro xs
  induction xs with
  | nil => intro acc h; simpa [List.foldl]
  | cons x xs ih =>
    intro acc h
    exact ih _ (nodup_jsSetInsert h x)

/-- A JS set never holds duplicates. -/
theorem nodup_jsSetOfList (xs : List String) : (jsSetOfList xs).Nodup :=
  nodup_foldl_jsSetInsert xs [] List.nodup_nil

/-- The blue (other-status) rendering never equals a red rendering. -/
theorem bgBlue_ne_bgRed (s t : String) : bgBlue s ≠ bgRed t := by
  intro h
  have hd : (bgBlue s).data = (bgRed t).data := by rw [h]
  simp only [bgBlue, bgRed, String.data_append] at hd
  have hc := congrArg (fun l => l.get? 3) hd
  simp at hc

/-- The blue (other-status) rendering never equals a green rendering. -/
theorem bgBlue_ne_bgGreen (s t : String) : bgBlue s ≠ bgGreen t := by
  intro h
  have hd : (bgBlue s).data = (bgGreen t).data := by rw [h]
  simp only [bgBlue, bgGreen, String.data_append] at hd
  have hc := congrArg (fun l => l.get? 3) hd
  simp at hc

/-- If the status set holds `Failed`, the aggregation is the red label. -/
theorem colorizedStatus_of_mem_failed {statuses : List String}
    (h : "Failed" ∈ statuses) :
    colorizedStatus statuses = bgRed (padEnd "Failed" 10 ' ') := by
  unfold colorizedStatus
  simp [h]

/-- The mapped stages' status cells are exactly the source stages'
`latestExecution?.status ?? ""` strings. -/
theorem mapped_status_list (humanize : Nat → String) (l : List StageState) :
    (l.map (mapStage humanize)).map (fun s => s.status.getD "") =
      l.map stageStatusStr := by
  rw [List.map_map]
  rfl

-- Basic sanity checks of the embedding on concrete data.
example : colorizedStatus (jsSetOfList ["Succeeded", "Failed"]) =
    bgRed (padEnd "Failed" 10 ' ') := by decide
example : colorizedStatus (jsSetOfList ["Succeeded", "Succeeded"]) =
    bgGreen (padEnd "Succeeded" 10 ' ') := by decide
example : colorizedStatus (jsSetOfList []) =
    bgGreen (padEnd "Succeeded" 10 ' ') := by decide
example : colorizedStatus (jsSetOfList ["Succeeded", "InProgress"]) =
    bgBlue (padEnd "InProgress" 10 ' ') := by decide

/-! ## Claim C1: aggregation with a `Failed` status present -/

/-- A deploy action whose own status is `Failed`. -/
def failedAction : ActionState :=
  { actionName := some "deploy"
    latestExecution := some { status := some "Failed", lastStatusChange := some 0 }
    revisionUrl := none
    entityUrl := none }

/-- A stage whose stage-level status is `Succeeded` even though its one
action has status `Failed`. -/
def stageWithFailedAction : StageState :=
  { stageName := some "Deploy"
    latestExecution := some { status := "Succeeded" }
    actionStates := some [failedAction] }

/-- A snapshot containing an action with status `Failed` inside a stage
whose `latestExecution.status` is `Succeeded`. -/
def snapshotC1 : GetPipelineStateOutput :=
  { pipelineName := some "integration-a"
    stageStates := some [stageWithFailedAction] }

/-- C1, counterexample: `snapshotC1` contains an action with status
`Failed`, yet the aggregation yields the `Succeeded` label, not the
`Failed` label — the code aggregates stage-level statuses, not action
statuses. -/
theorem c1_counterexample :
    (∃ st ∈ snapshotC1.stageStates.getD [], ∃ a ∈ st.actionStates.getD [],
        ∃ ex, a.latestExecution = some ex ∧ ex.status = some "Failed") ∧
    summaryRow (mapPipeline (fun _ => "") snapshotC1) ≠
      ["integration-a", bgRed (padEnd "Failed" 10 ' ')] ∧
    summaryRow (mapPipeline (fun _ => "") snapshotC1) =
      ["integration-a", bgGreen (padEnd "Succeeded" 10 ' ')] := by
  refine ⟨by decide, by decide, by decide⟩

/-- C1 (amended): for every snapshot with a present stage list containing
at least one stage whose `latestExecution` status is `Failed`, the
aggregation yields the `Failed` label, regardless of any other statuses. -/
theorem c1_aggregate_failed (humanize : Nat → String)
    (p : GetPipelineStateOutput) (l : List StageState)
    (hl : p.stageStates = some l)
    (hf : ∃ st ∈ l, stageStatusStr st = "Failed") :
    summaryRow (mapPipeline humanize p) =
      [(p.pipelineName.map (fun n => n.take 30)).getD "",
       bgRed (padEnd "Failed" 10 ' ')] := by
  obtain ⟨st, hmem, hst⟩ := hf
  have hfm : "Failed" ∈ l.map stageStatusStr :=
    List.mem_map.mpr ⟨st, hmem, hst⟩
  have hset : "Failed" ∈ jsSetOfList (l.map stageStatusStr) :=
    mem_jsSetOfList.mpr hfm
  simp only [summaryRow, mapPipeline, hl, Option.map_some', mapped_status_list]
  rw [colorizedStatus_of_mem_failed hset]

/-- C1 witness: the amended theorem applied to a concrete snapshot whose
second stage has status `Failed`. -/
theorem c1_witness :
    summaryRow (mapPipeline (fun _ => "")
      { pipelineName := some "integration-a"
        stageStates := some
          [{ stageName := some "Build",
             latestExecution := some { status := "Succeeded" },
             actionStates := none },
           { stageName := some "Deploy",
             latestExecution := some { status := "Failed" },
             actionStates := none }] }) =
      ["integration-a", bgRed (padEnd "Failed" 10 ' ')] := by
  have h := c1_aggregate_failed (fun _ => "")
    { pipelineName := some "integration-a"
      stageStates := some
        [{ stageName := some "Build",
           latestExecution := some { status := "Succeeded" },
           actionStates := none },
         { stageName := some "Deploy",
           latestExecution := some { status := "Failed" },
           actionStates := none }] }
    [{ stageName := some "Build",
       latestExecution := some { status := "Succeeded" },
       actionStates := none },
     { stageName := some "Deploy",
       latestExecution := some { status := "Failed" },
       actionStates := none }]
    rfl (by decide)
  simpa using h

/-! ## Claim C2: aggregation when everything succeeded -/

/-- A duplicate-free list whose members all equal `a` is `[]` or `[a]`. -/
theorem eq_nil_or_singleton_of_all_eq {l : List String} (hn : l.Nodup)
    (a : String) (h : ∀ x ∈ l, x = a) : l = [] ∨ l = [a] := by
  cases l with
  | nil => exact Or.inl rfl
  | cons b t =>
    have hb : b = a := h b (List.mem_cons_self b t)
    have hbt : b ∉ t := (List.nodup_cons.mp hn).1
    cases t with
    | nil => exact Or.inr (by rw [hb])
    | cons c u =>
      have hc : c = a := h c (List.mem_cons_of_mem b (List.mem_cons_self c u))
      exact absurd (by rw [hb, ← hc]; exact List.mem_cons_self c u) hbt

/-- If every status in the (duplicate-free) set is `Succeeded`, the
aggregation is the green label; this covers the empty set. -/
theorem colorizedStatus_all_succeeded {statuses : List String}
    (hn : statuses.Nodup) (h : ∀ x ∈ statuses, x = "Succeeded") :
    colorizedStatus statuses = bgGreen (padEnd "Succeeded" 10 ' ') := by
  rcases eq_nil_or_singleton_of_all_eq hn "Succeeded" h with rfl | rfl
  · decide
  · decide

/-- An action whose own status is `Succeeded`. -/
def succeededAction : ActionState :=
  { actionName := some "build"
    latestExecution := some { status := some "Succeeded", lastStatusChange := some 0 }
    revisionUrl := none
    entityUrl := none }

/-- A snapshot in which every action's status is `Succeeded` but the one
stage's `latestExecution.status` is `InProgress`. -/
def snapshotC2 : GetPipelineStateOutput :=
  { pipelineName := some "integration-b"
    stageStates := some
      [{ stageName := some "Build"
         latestExecution := some { status := "InProgress" }
         actionStates := some [succeededAction] }] }

/-- C2, counterexample: in `snapshotC2` every action's status is
`Succeeded`, yet the aggregation yields the `InProgress` label, not the
`Succeeded` label — the code aggregates stage-level statuses. -/
theorem c2_counterexample :
    (∀ st ∈ snapshotC2.stageStates.getD [], ∀ a ∈ st.actionStates.getD [],
        ∃ ex, a.latestExecution = some ex ∧ ex.status = some "Succeeded") ∧
    summaryRow (mapPipeline (fun _ => "") snapshotC2) ≠
      ["integration-b", bgGreen (padEnd "Succeeded" 10 ' ')] ∧
    summaryRow (mapPipeline (fun _ => "") snapshotC2) =
      ["integration-b", bgBlue (padEnd "InProgress" 10 ' ')] := by
  refine ⟨by decide, by decide, by decide⟩

/-- C2 (amended): for every snapshot with a present stage list in which
every stage's `latestExecution` status is `Succeeded` — including the
empty stage list — the aggregation yields the `Succeeded` label. -/
theorem c2_aggregate_succeeded (humanize : Nat → String)
    (p : GetPipelineStateOutput) (l : List StageState)
    (hl : p.stageStates = some l)
    (hs : ∀ st ∈ l, stageStatusStr st = "Succeeded") :
    summaryRow (mapPipeline humanize p) =
      [(p.pipelineName.map (fun n => n.take 30)).getD "",
       bgGreen (padEnd "Succeeded" 10 ' ')] := by
  have hall : ∀ x ∈ jsSetOfList (l.map stageStatusStr), x = "Succeeded" := by
    intro x hx
    obtain ⟨st, hmem, hst⟩ := List.mem_map.mp (mem_jsSetOfList.mp hx)
    exact hst ▸ hs st hmem
  simp only [summaryRow, mapPipeline, hl, Option.map_some', mapped_status_list]
  rw [colorizedStatus_all_succeeded (nodup_jsSetOfList _) hall]

/-- C2 witness: the amended theorem applied to a snapshot whose two
stages both have status `Succeeded`, and to one with no stage at all. -/
theorem c2_witness :
    summaryRow (mapPipeline (fun _ => "")
      { pipelineName := some "integration-b"
        stageStates := some
          [{ stageName := some "Build",
             latestExecution := some { status := "Succeeded" },
             actionStates := none }] }) =
      ["integration-b", bgGreen (padEnd "Succeeded" 10 ' ')] ∧
    summaryRow (mapPipeline (fun _ => "")
      { pipelineName := some "integration-c", stageStates := some [] }) =
      ["integration-c", bgGreen (padEnd "Succeeded" 10 ' ')] := by
  constructor
  · have h := c2_aggregate_succeeded (fun _ => "")
      { pipelineName := some "integration-b"
        stageStates := some
          [{ stageName := some "Build",
             latestExecution := some { status := "Succeeded" },
             actionStates := none }] }
      [{ stageName := some "Build",
         latestExecution := some { status := "Succeeded" },
         actionStates := none }]
      rfl (by decide)
    simpa using h
  · have h := c2_aggregate_succeeded (fun _ => "")
      { pipelineName := some "integration-c", stageStates := some [] }
      [] rfl (by decide)
    simpa using h

/-! ## Claim C3: aggregation with only non-terminal statuses -/

/-- With no `Failed` status and at least one non-`Succeeded` status, the
aggregation is the blue rendering of one of those remaining statuses. -/
theorem colorizedStatus_other {statuses : List String}
    (hn : statuses.Nodup) (hf : "Failed" ∉ statuses)
    (ho : ∃ x ∈ statuses, x ≠ "Succeeded") :
    ∃ x ∈ statuses, x ≠ "Succeeded" ∧ x ≠ "Failed" ∧
      colorizedStatus statuses = bgBlue (padEnd x 10 ' ') := by
  obtain ⟨x0, hx0, hx0ne⟩ := ho
  have hx0er : x0 ∈ statuses.erase "Succeeded" :=
    (List.mem_erase_of_ne hx0ne).mpr hx0
  have hne : ¬(statuses.erase "Succeeded").isEmpty := by
    cases he : statuses.erase "Succeeded" with
    | nil => rw [he] at hx0er; exact absurd hx0er (List.not_mem_nil x0)
    | cons y t => simp [he]
  cases he : statuses.erase "Succeeded" with
  | nil => rw [he] at hx0er; exact absurd hx0er (List.not_mem_nil x0)
  | cons y t =>
    have hy : y ∈ statuses.erase "Succeeded" := by
      rw [he]; exact List.mem_cons_self y t
    have hymem : y ∈ statuses := List.mem_of_mem_erase hy
    have hyne : y ≠ "Succeeded" := (hn.mem_erase_iff.mp hy).1
    have hynf : y ≠ "Failed" := fun h => hf (h ▸ hymem)
    refine ⟨y, hymem, hyne, hynf, ?_⟩
    unfold colorizedStatus
    rw [if_neg hf]
    simp only [he]
    simp

/-- A stage whose stage-level status is `Failed` while its one action is
only `InProgress`. -/
def snapshotC3 : GetPipelineStateOutput :=
  { pipelineName := some "integration-d"
    stageStates := some
      [{ stageName := some "Deploy"
         latestExecution := some { status := "Failed" }
         actionStates := some
           [{ actionName := some "deploy"
              latestExecution := some
                { status := some "InProgress", lastStatusChange := some 0 }
              revisionUrl := none
              entityUrl := none }] }] }

/-- C3, counterexample: `snapshotC3` has no `Failed` action and one
action whose status is `InProgress` (neither `Succeeded` nor `Failed`),
yet the aggregation yields the `Failed` label — the code aggregates
stage-level statuses, so a `Failed` stage status wins even when no
action failed. -/
theorem c3_counterexample :
    (∀ st ∈ snapshotC3.stageStates.getD [], ∀ a ∈ st.actionStates.getD [],
        ∀ ex, a.latestExecution = some ex → ex.status ≠ some "Failed") ∧
    (∃ st ∈ snapshotC3.stageStates.getD [], ∃ a ∈ st.actionStates.getD [],
        ∃ ex, a.latestExecution = some ex ∧ ex.status = some "InProgress") ∧
    summaryRow (mapPipeline (fun _ => "") snapshotC3) =
      ["integration-d", bgRed (padEnd "Failed" 10 ' ')] := by
  refine ⟨by decide, by decide, by decide⟩

/-- C3 (amended): for every snapshot with a present stage list, none of
whose stage-level statuses is `Failed` and at least one of whose
stage-level statuses is not `Succeeded`, the aggregation is the blue
rendering of one of exactly those remaining stage statuses — never the
`Failed` or `Succeeded` label. -/
theorem c3_aggregate_other (humanize : Nat → String)
    (p : GetPipelineStateOutput) (l : List StageState)
    (hl : p.stageStates = some l)
    (hnf : ∀ st ∈ l, stageStatusStr st ≠ "Failed")
    (ho : ∃ st ∈ l, stageStatusStr st ≠ "Succeeded") :
    ∃ x ∈ l.map stageStatusStr, x ≠ "Succeeded" ∧ x ≠ "Failed" ∧
      summaryRow (mapPipeline humanize p) =
        [(p.pipelineName.map (fun n => n.take 30)).getD "",
         bgBlue (padEnd x 10 ' ')] ∧
      bgBlue (padEnd x 10 ' ') ≠ bgRed (padEnd "Failed" 10 ' ') ∧
      bgBlue (padEnd x 10 ' ') ≠ bgGreen (padEnd "Succeeded" 10 ' ') := by
  have hfset : "Failed" ∉ jsSetOfList (l.map stageStatusStr) := by
    intro hmem
    obtain ⟨st, hst, heq⟩ := List.mem_map.mp (mem_jsSetOfList.mp hmem)
    exact hnf st hst heq
  have hoset : ∃ x ∈ jsSetOfList (l.map stageStatusStr), x ≠ "Succeeded" := by
    obtain ⟨st, hst, hne⟩ := ho
    exact ⟨stageStatusStr st,
      mem_jsSetOfList.mpr (List.mem_map.mpr ⟨st, hst, rfl⟩), hne⟩
  obtain ⟨x, hx, hxs, hxf, hcs⟩ :=
    colorizedStatus_other (nodup_jsSetOfList (l.map stageStatusStr)) hfset hoset
  refine ⟨x, mem_jsSetOfList.mp hx, hxs, hxf, ?_,
    bgBlue_ne_bgRed _ _, bgBlue_ne_bgGreen _ _⟩
  simp only [summaryRow, mapPipeline, hl, Option.map_some', mapped_status_list]
  rw [hcs]

/-- C3 witness: the amended theorem applied to a snapshot whose only
stage status is `InProgress`. -/
theorem c3_witness :
    (∀ st ∈ [({ stageName := some "Build",
                latestExecution := some { status := "InProgress" },
                actionStates := none } : StageState)],
        stageStatusStr st ≠ "Failed") ∧
    (∃ st ∈ [({ stageName := some "Build",
                latestExecution := some { status := "InProgress" },
                actionStates := none } : StageState)],
        stageStatusStr st ≠ "Succeeded") ∧
    ∃ x ∈ [({ stageName := some "Build",
              latestExecution := some { status := "InProgress" },
              actionStates := none } : StageState)].map stageStatusStr,
      x ≠ "Succeeded" ∧ x ≠ "Failed" ∧
      summaryRow (mapPipeline (fun _ => "")
        { pipelineName := some "integration-e"
          stageStates := some
            [{ stageName := some "Build",
               latestExecution := some { status := "InProgress" },
               actionStates := none }] }) =
        [((some "integration-e" : Option String).map
            (fun n => n.take 30)).getD "",
         bgBlue (padEnd x 10 ' ')] ∧
      bgBlue (padEnd x 10 ' ') ≠ bgRed (padEnd "Failed" 10 ' ') ∧
      bgBlue (padEnd x 10 ' ') ≠ bgGreen (padEnd "Succeeded" 10 ' ') := by
  refine ⟨by decide, by decide, ?_⟩
  exact c3_aggregate_other (fun _ => "")
    { pipelineName := some "integration-e"
      stageStates := some
        [{ stageName := some "Build",
           latestExecution := some { status := "InProgress" },
           actionStates := none }] }
    [{ stageName := some "Build",
       latestExecution := some { status := "InProgress" },
       actionStates := none }]
    rfl (by decide) (by decide)

/-! ## Claim C4: the watched pipeline set -/

/-- A pipeline summary as returned by `listPipelines`. -/
structure PipelineSummary where
  name : Option String
deriving DecidableEq, Repr

/-- Character-list test that the first list starts the second. -/
def isPrefixList : List Char → List Char → Bool
  | [], _ => true
  | _ :: _, [] => false
  | a :: as, b :: bs => a == b && isPrefixList as bs

/-- ASCII lower-casing of a string, character by character — the case
folding the JS `i` regex flag performs on an ASCII pattern. -/
def asciiLower (s : String) : String :=
  String.mk (s.data.map Char.toLower)

/-- The JS regex test `name.match(/^integration/i)`: an ASCII
case-insensitive prefix match of `integration`. -/
def matchesIntegration (name : String) : Bool :=
  isPrefixList "integration".data (asciiLower name).data

/-- The filter in `fetchPipelines`: keep a pipeline when its (possibly
absent) name matches `/^integration/i`, drop it otherwise. -/
def watched (ps : List PipelineSummary) : List PipelineSummary :=
  ps.filter (fun pp =>
    match pp.name with
    | some n => matchesIntegration n
    | none => false)

/-- The names for which `getPipelineDetails` is called, in order
(`pp.name!` on each watched summary). -/
def detailFetchNames (ps : List PipelineSummary) : List String :=
  (watched ps).map (fun pp => pp.name.getD "")

/-- C4: the watched set is exactly the summaries whose name matches the
case-insensitive prefix `integration`; every detail fetch is for a
matching name; and on `["integration-a", "Integration-B", "other-c"]`
the watched set is exactly the first two. -/
theorem c4_watched_filter :
    (∀ (ps : List PipelineSummary) (pp : PipelineSummary),
       pp ∈ watched ps ↔
         pp ∈ ps ∧ ∃ n, pp.name = some n ∧ matchesIntegration n = true) ∧
    (∀ (ps : List PipelineSummary) (x : String),
       x ∈ detailFetchNames ps → matchesIntegration x = true) ∧
    watched [⟨some "integration-a"⟩, ⟨some "Integration-B"⟩,
             ⟨some "other-c"⟩] =
      [⟨some "integration-a"⟩, ⟨some "Integration-B"⟩] := by
  refine ⟨?_, ?_, by decide⟩
  · intro ps pp
    unfold watched
    rw [List.mem_filter]
    constructor
    · rintro ⟨hmem, hmatch⟩
      cases hn : pp.name with
      | none => rw [hn] at hmatch; exact absurd hmatch (by simp)
      | some n =>
        rw [hn] at hmatch
        exact ⟨hmem, n, rfl, hmatch⟩
    · rintro ⟨hmem, n, hn, hmatch⟩
      exact ⟨hmem, by rw [hn]; exact hmatch⟩
  · intro ps x hx
    unfold detailFetchNames at hx
    obtain ⟨pp, hpp, hname⟩ := List.mem_map.mp hx
    unfold watched at hpp
    have hfil := (List.mem_filter.mp hpp).2
    cases hn : pp.name with
    | none => rw [hn] at hfil; exact absurd hfil (by simp)
    | some n =>
      rw [hn] at hfil
      rw [← hname, hn]
      exact hfil

/-- C4 witness: the filter membership applied to a concrete list, and a
concrete detail-fetch name shown to match the pattern. -/
theorem c4_witness :
    (⟨some "Integration-B"⟩ ∈
        watched [⟨some "integration-a"⟩, ⟨some "Integration-B"⟩,
                 ⟨some "other-c"⟩] ↔
      (⟨some "Integration-B"⟩ : PipelineSummary) ∈
          [⟨some "integration-a"⟩, ⟨some "Integration-B"⟩,
           ⟨some "other-c"⟩] ∧
        ∃ n, (⟨some "Integration-B"⟩ : PipelineSummary).name = some n ∧
          matchesIntegration n = true) ∧
    ("integration-a" ∈
        detailFetchNames [⟨some "integration-a"⟩, ⟨some "other-c"⟩] →
      matchesIntegration "integration-a" = true) := by
  exact ⟨c4_watched_filter.1 _ _, c4_watched_filter.2.1 _ _⟩

/-! ## Claim C5: rate-limiter gating of detail fetches -/

/-- `new RateLimiter(5, "second")`: tokens granted per interval. -/
def limiterTokensPerInterval : Nat := 5

/-- `new RateLimiter(5, "second")`: the replenishment interval. -/
def limiterInterval : String := "second"

/-- Observable calls of one `fetchPipelines` cycle. -/
inductive FetchEvent where
  | listCall : FetchEvent
  | tokenAcquire : FetchEvent
  | detailCall : String → FetchEvent
deriving DecidableEq, Repr

/-- The promise chain run for one watched pipeline:
`removeToken().then(() => getPipelineDetails(pp.name!))`. -/
def detailChain (pp : PipelineSummary) : List FetchEvent :=
  [FetchEvent.tokenAcquire, FetchEvent.detailCall (pp.name.getD "")]

/-- The call trace of one cycle in per-chain program order: the
unthrottled `listPipelines` call, then for each watched pipeline its
token acquisition immediately followed by its detail call. -/
def fetchCycleTrace (ps : List PipelineSummary) : List FetchEvent :=
  FetchEvent.listCall :: (watched ps).flatMap detailChain

/-- Recognizer for detail-call events. -/
def isDetailCall : FetchEvent → Bool
  | FetchEvent.detailCall _ => true
  | _ => false

/-- Recognizer for token-acquisition events. -/
def isAcquire : FetchEvent → Bool
  | FetchEvent.tokenAcquire => true
  | _ => false

/-- Checks that every detail call in a trace is immediately preceded by
its own token acquisition, never reusing an acquisition. -/
def gatedOk : List FetchEvent → Bool
  | [] => true
  | FetchEvent.detailCall _ :: _ => false
  | FetchEvent.tokenAcquire :: FetchEvent.detailCall _ :: rest => gatedOk rest
  | _ :: rest => gatedOk rest

/-- Every concatenation of detail chains is correctly gated. -/
theorem gatedOk_flatMap_detailChain (l : List PipelineSummary) :
    gatedOk (l.flatMap detailChain) = true := by
  induction l with
  | nil => rfl
  | cons pp t ih =>
    rw [List.flatMap_cons]
    exact ih

/-- In a concatenation of detail chains, acquisitions and detail calls
both number the chains. -/
theorem counts_flatMap_detailChain (l : List PipelineSummary) :
    (l.flatMap detailChain).countP isAcquire = l.length ∧
    (l.flatMap detailChain).countP isDetailCall = l.length := by
  induction l with
  | nil => exact ⟨rfl, rfl⟩
  | cons pp t ih =>
    rw [List.flatMap_cons]
    simp only [List.countP_append, ih.1, ih.2, detailChain]
    constructor <;>
      simp [List.countP_cons, isAcquire, isDetailCall, Nat.add_comm]

/-- A concatenation of detail chains never contains the list call. -/
theorem listCall_not_mem_flatMap (l : List PipelineSummary) :
    FetchEvent.listCall ∉ l.flatMap detailChain := by
  induction l with
  | nil => simp
  | cons pp t ih =>
    rw [List.flatMap_cons]
    simp only [List.mem_append, detailChain]
    rintro (h | h)
    · simp at h
    · exact ih h

/-- C5: in every fetch cycle the unthrottled `listPipelines` call comes
first and is never preceded by (or counted among) token acquisitions;
every `getPipelineDetails` call is immediately preceded by its own token
acquisition; acquisitions and detail calls are in bijection (one each
per watched pipeline); and the limiter is configured at 5 tokens per
second. -/
theorem c5_detail_fetches_gated (ps : List PipelineSummary) :
    (fetchCycleTrace ps).head? = some FetchEvent.listCall ∧
    FetchEvent.listCall ∉ (fetchCycleTrace ps).drop 1 ∧
    gatedOk (fetchCycleTrace ps) = true ∧
    (fetchCycleTrace ps).countP isAcquire =
      (fetchCycleTrace ps).countP isDetailCall ∧
    (fetchCycleTrace ps).countP isDetailCall = (watched ps).length ∧
    limiterTokensPerInterval = 5 ∧ limiterInterval = "second" := by
  have hc := counts_flatMap_detailChain (watched ps)
  refine ⟨rfl, ?_, ?_, ?_, ?_, rfl, rfl⟩
  · simpa [fetchCycleTrace] using listCall_not_mem_flatMap (watched ps)
  · exact gatedOk_flatMap_detailChain (watched ps)
  · simp [fetchCycleTrace, List.countP_cons, isAcquire, isDetailCall,
      hc.1, hc.2]
  · simp [fetchCycleTrace, List.countP_cons, isDetailCall, hc.2]

/-- C5 witness: the gating theorem applied to a concrete pipeline list
with two watched and one unwatched pipeline. -/
theorem c5_witness :
    (fetchCycleTrace [⟨some "integration-a"⟩, ⟨some "other-c"⟩,
        ⟨some "Integration-B"⟩]).head? = some FetchEvent.listCall ∧
    FetchEvent.listCall ∉ (fetchCycleTrace [⟨some "integration-a"⟩,
        ⟨some "other-c"⟩, ⟨some "Integration-B"⟩]).drop 1 ∧
    gatedOk (fetchCycleTrace [⟨some "integration-a"⟩, ⟨some "other-c"⟩,
        ⟨some "Integration-B"⟩]) = true ∧
    (fetchCycleTrace [⟨some "integration-a"⟩, ⟨some "other-c"⟩,
        ⟨some "Integration-B"⟩]).countP isAcquire =
      (fetchCycleTrace [⟨some "integration-a"⟩, ⟨some "other-c"⟩,
        ⟨some "Integration-B"⟩]).countP isDetailCall ∧
    (fetchCycleTrace [⟨some "integration-a"⟩, ⟨some "other-c"⟩,
        ⟨some "Integration-B"⟩]).countP isDetailCall =
      (watched [⟨some "integration-a"⟩, ⟨some "other-c"⟩,
        ⟨some "Integration-B"⟩]).length ∧
    limiterTokensPerInterval = 5 ∧ limiterInterval = "second" :=
  c5_detail_fetches_gated
    [⟨some "integration-a"⟩, ⟨some "other-c"⟩, ⟨some "Integration-B"⟩]

/-! ## Claim C6: a cycle with one failing detail fetch -/

/-- Recognizer for a rejected promise result. -/
def isRejected {α : Type} : Except String α → Bool
  | Except.error _ => true
  | Except.ok _ => false

/-- JS `Promise.all`: resolves with all values, rejects as soon as any
input rejects. -/
def promiseAll {α : Type} : List (Except String α) → Except String (List α)
  | [] => Except.ok []
  | r :: rs =>
    match r with
    | Except.error e => Except.error e
    | Except.ok a =>
      match promiseAll rs with
      | Except.error e => Except.error e
      | Except.ok as => Except.ok (a :: as)

/-- The settled detail-fetch promises of one cycle, one per watched
pipeline, for a given fetch outcome function. -/
def detailResults (fetch : String → Except String GetPipelineStateOutput)
    (ps : List PipelineSummary) :
    List (Except String GetPipelineStateOutput) :=
  (watched ps).map (fun pp => fetch (pp.name.getD ""))

/-- The summary table's contents (`table.setData` argument). -/
structure TableData where
  headers : List String
  data : List (List String)
deriving DecidableEq, Repr

/-- One `fetchPipelines` cycle's effect on the summary table: the
`.then` chain after `Promise.all` runs only when every detail fetch
resolved — there is no `.catch`, so any rejection leaves the previous
table contents untouched. -/
def publishCycle (humanize : Nat → String)
    (fetch : String → Except String GetPipelineStateOutput)
    (ps : List PipelineSummary) (prev : TableData) : TableData :=
  match promiseAll (detailResults fetch ps) with
  | Except.error _ => prev
  | Except.ok stats =>
    { headers := ["Pipeline", "Status"], data := statsRows humanize stats }

/-- If any input promise rejected, `Promise.all` rejects. -/
theorem promiseAll_of_rejected {α : Type}
    (rs : List (Except String α))
    (h : ∃ r ∈ rs, isRejected r = true) :
    ∃ e, promiseAll rs = Except.error e := by
  induction rs with
  | nil => obtain ⟨r, hr, _⟩ := h; exact absurd hr (List.not_mem_nil r)
  | cons r rs ih =>
    cases r with
    | error e => exact ⟨e, rfl⟩
    | ok a =>
      obtain ⟨r0, hr0, hrej⟩ := h
      rcases List.mem_cons.mp hr0 with rfl | hr0
      · exact absurd hrej (by simp [isRejected])
      · obtain ⟨e, he⟩ := ih ⟨r0, hr0, hrej⟩
        exact ⟨e, by simp [promiseAll, he]⟩

instance {ε α : Type} [DecidableEq ε] [DecidableEq α] :
    DecidableEq (Except ε α) := fun a b =>
  match a, b with
  | Except.ok x, Except.ok y =>
    if h : x = y then isTrue (congrArg Except.ok h)
    else isFalse (fun hc => h (Except.ok.inj hc))
  | Except.ok _, Except.error _ => isFalse (fun hc => Except.noConfusion hc)
  | Except.error _, Except.ok _ => isFalse (fun hc => Except.noConfusion hc)
  | Except.error e, Except.error f =>
    if h : e = f then isTrue (congrArg Except.error h)
    else isFalse (fun hc => h (Except.error.inj hc))

/-- The fetch outcomes of the counterexample cycle: the detail fetch for
`integration-b` rejects, the other two resolve. -/
def c6Fetch : String → Except String GetPipelineStateOutput := fun n =>
  if n = "integration-b" then Except.error "network error"
  else Except.ok { pipelineName := some n, stageStates := some [] }

/-- Three watched pipelines. -/
def c6List : List PipelineSummary :=
  [⟨some "integration-a"⟩, ⟨some "integration-b"⟩, ⟨some "integration-c"⟩]

/-- C6, counterexample: with three watched pipelines of which exactly
one detail fetch rejects, the cycle publishes nothing at all — the
previous (empty) table is kept and the two successful pipelines' rows
never appear.  The claim that the published cycle contains rows for the
successful pipelines only is false. -/
theorem c6_counterexample :
    detailResults c6Fetch c6List =
      [Except.ok { pipelineName := some "integration-a",
                   stageStates := some [] },
       Except.error "network error",
       Except.ok { pipelineName := some "integration-c",
                   stageStates := some [] }] ∧
    publishCycle (fun _ => "") c6Fetch c6List ⟨["Pipeline", "Status"], []⟩ =
      ⟨["Pipeline", "Status"], []⟩ ∧
    publishCycle (fun _ => "") c6Fetch c6List ⟨["Pipeline", "Status"], []⟩ ≠
      ⟨["Pipeline", "Status"],
       [["integration-a", bgGreen (padEnd "Succeeded" 10 ' ')],
        ["integration-c", bgGreen (padEnd "Succeeded" 10 ' ')]]⟩ := by
  refine ⟨rfl, rfl, by decide⟩

/-- C6 (amended): whenever any detail fetch of a cycle rejects, the
whole cycle is abandoned — `Promise.all` rejects, the publish step never
runs, and the summary table keeps its previous contents (no rows are
published, not even for the pipelines whose fetches succeeded). -/
theorem c6_cycle_abandoned (humanize : Nat → String)
    (fetch : String → Except String GetPipelineStateOutput)
    (ps : List PipelineSummary) (prev : TableData)
    (h : ∃ r ∈ detailResults fetch ps, isRejected r = true) :
    publishCycle humanize fetch ps prev = prev := by
  obtain ⟨e, he⟩ := promiseAll_of_rejected (detailResults fetch ps) h
  unfold publishCycle
  rw [he]

/-- C6 witness: the amended theorem applied to the concrete
one-failure cycle. -/
theorem c6_witness :
    (∃ r ∈ detailResults c6Fetch c6List, isRejected r = true) ∧
    publishCycle (fun _ => "") c6Fetch c6List ⟨["Pipeline", "Status"], []⟩ =
      ⟨["Pipeline", "Status"], []⟩ :=
  ⟨⟨Except.error "network error", by decide⟩,
   c6_cycle_abandoned (fun _ => "") c6Fetch c6List
     ⟨["Pipeline", "Status"], []⟩
     ⟨Except.error "network error", by decide⟩⟩

/-! ## The "select item" handler (detail view) -/

/-- A JS template literal rendering of a possibly-absent string field:
`undefined` prints as the text `undefined`. -/
def jsTemplate (o : Option String) : String := o.getD "undefined"

/-- `node.content.split(" ")[0]`: the text before the first space. -/
def firstToken (content : String) : String :=
  String.mk (content.data.takeWhile (fun c => c != ' '))

/-- `stats.find(p => p.pipelineName!.startsWith(key))`: left-to-right
search; a snapshot with an absent name crashes the predicate with a
TypeError. -/
def findPipeline (key : String) :
    List GetPipelineStateOutput → Except String (Option GetPipelineStateOutput)
  | [] => Except.ok none
  | p :: rest =>
    match p.pipelineName with
    | none => Except.error "TypeError"
    | some n =>
      if isPrefixList key.data n.data then Except.ok (some p)
      else findPipeline key rest

/-- The four `detailTable.add` lines for one action, or the runtime
error that interrupts them: reading `.status` of an absent
`latestExecution` throws before the first line is added, and
`humanizeTime` of an absent `lastStatusChange` throws after it. -/
def renderActions (humanize : Nat → String) (stageName : Option String) :
    List ActionState → List String × Option String
  | [] => ([], none)
  | a :: rest =>
    match a.latestExecution with
    | none => ([], some "TypeError")
    | some ex =>
      let line1 := "Stage: " ++ jsTemplate stageName ++ "\tAction: " ++
        jsTemplate a.actionName ++ "\tStatus: " ++ jsTemplate ex.status
      match ex.lastStatusChange with
      | none => ([line1], some "RangeError")
      | some t =>
        let r := renderActions humanize stageName rest
        ([line1, "\tLast Ran: " ++ humanize t,
          "\tLink: " ++ (a.revisionUrl.getD (a.entityUrl.getD "")), ""]
          ++ r.1, r.2)

/-- The handler's nested `_.each` over stages: actions of each stage in
order, stopping at the first runtime error. -/
def renderStages (humanize : Nat → String) :
    List StageState → List String × Option String
  | [] => ([], none)
  | st :: rest =>
    let r := renderActions humanize st.stageName (st.actionStates.getD [])
    match r.2 with
    | some e => (r.1, some e)
    | none =>
      let r2 := renderStages humanize rest
      (r.1 ++ r2.1, r2.2)

/-- The whole "select item" handler: look the selected row up by the
first token of its display text, then render the found pipeline's
stages; the items added so far are paired with the runtime error, if
any. -/
def selectHandler (humanize : Nat → String)
    (stats : List GetPipelineStateOutput) (content : String) :
    List String × Option String :=
  match findPipeline (firstToken content) stats with
  | Except.error e => ([], some e)
  | Except.ok none => ([], none)
  | Except.ok (some p) => renderStages humanize (p.stageStates.getD [])

/-- The detail list's contents after a "select item" event: the
handler's first statement `detailTable.clearItems()` discards the
previous items, so the result never depends on them. -/
def detailViewAfterSelect (_prevItems : List String)
    (humanize : Nat → String) (stats : List GetPipelineStateOutput)
    (content : String) : List String × Option String :=
  selectHandler humanize stats content

/-- The expected block for one action, written from the spec's words:
stage name, action name, action status, humanized last-change time, and
the best-available link (revision link, else entity link, else empty). -/
def specActionBlock (humanize : Nat → String) (stageName : Option String)
    (a : ActionState) : List String :=
  ["Stage: " ++ jsTemplate stageName ++ "\tAction: " ++
     jsTemplate a.actionName ++ "\tStatus: " ++
     jsTemplate (a.latestExecution.bind (·.status)),
   "\tLast Ran: " ++
     (((a.latestExecution.bind (·.lastStatusChange)).map humanize).getD ""),
   "\tLink: " ++ (a.revisionUrl.getD (a.entityUrl.getD "")),
   ""]

/-- The expected detail view, written from the spec's words: one block
per action, in original stage order and within each stage in original
action order. -/
def specDetailBlocks (humanize : Nat → String)
    (p : GetPipelineStateOutput) : List String :=
  (p.stageStates.getD []).flatMap (fun st =>
    (st.actionStates.getD []).flatMap (specActionBlock humanize st.stageName))

/-- When every action of the list has a `latestExecution` with a
`lastStatusChange`, rendering never errors and produces exactly the
expected blocks in order. -/
theorem renderActions_defined (humanize : Nat → String)
    (stageName : Option String) (actions : List ActionState)
    (hdef : ∀ a ∈ actions,
      (a.latestExecution.bind (·.lastStatusChange)).isSome = true) :
    renderActions humanize stageName actions =
      (actions.flatMap (specActionBlock humanize stageName), none) := by
  induction actions with
  | nil => rfl
  | cons a rest ih =>
    have ha := hdef a (List.mem_cons_self a rest)
    cases hle : a.latestExecution with
    | none => rw [hle] at ha; simp at ha
    | some ex =>
      rw [hle] at ha
      cases hts : ex.lastStatusChange with
      | none => simp [hts] at ha
      | some t =>
        have hrest := ih (fun b hb => hdef b (List.mem_cons_of_mem a hb))
        simp [renderActions, hle, hts, hrest, specActionBlock]

/-- When every action of every stage is fully populated, the stage
traversal renders exactly the expected blocks and reports no error. -/
theorem renderStages_defined (humanize : Nat → String)
    (stages : List StageState)
    (hdef : ∀ st ∈ stages, ∀ a ∈ st.actionStates.getD [],
      (a.latestExecution.bind (·.lastStatusChange)).isSome = true) :
    renderStages humanize stages =
      ((stages.flatMap (fun st =>
          (st.actionStates.getD []).flatMap
            (specActionBlock humanize st.stageName))), none) := by
  induction stages with
  | nil => rfl
  | cons st rest ih =>
    have hst := renderActions_defined humanize st.stageName
      (st.actionStates.getD [])
      (fun a ha => hdef st (List.mem_cons_self st rest) a ha)
    have hrest := ih (fun s hs a ha =>
      hdef s (List.mem_cons_of_mem st hs) a ha)
    simp only [renderStages, hst, hrest, List.flatMap_cons]

/-! ## Claim C7: contents of the detail view on selection -/

/-- A pipeline whose single action lacks `latestExecution`. -/
def c7Pipeline : GetPipelineStateOutput :=
  { pipelineName := some "integration-x"
    stageStates := some
      [{ stageName := some "Deploy"
         latestExecution := none
         actionStates := some
           [{ actionName := some "deploy", latestExecution := none,
              revisionUrl := none, entityUrl := none }] }] }

/-- C7, counterexample: selecting `c7Pipeline` does not append a block
for its action — reading `.status` of the absent `latestExecution`
throws, so the handler ends with a TypeError and an empty detail list
instead of the claimed per-action block. -/
theorem c7_counterexample :
    findPipeline (firstToken "integration-x") [c7Pipeline] =
      Except.ok (some c7Pipeline) ∧
    detailViewAfterSelect [] (fun _ => "") [c7Pipeline] "integration-x" =
      ([], some "TypeError") ∧
    detailViewAfterSelect [] (fun _ => "") [c7Pipeline] "integration-x" ≠
      (specDetailBlocks (fun _ => "") c7Pipeline, none) := by
  refine ⟨rfl, rfl, by decide⟩

/-- C7 (amended): on a "select row" event whose lookup finds a pipeline
all of whose actions carry a `latestExecution` with a
`lastStatusChange`, the handler discards all prior items and appends, in
original stage order and original action order within each stage, one
block per action holding the stage name, action name, action status,
humanized last-change time, and the action's `revisionUrl`, else its
`entityUrl`, else the empty string — with no runtime error. -/
theorem c7_detail_view (prevItems : List String) (humanize : Nat → String)
    (stats : List GetPipelineStateOutput) (content : String)
    (p : GetPipelineStateOutput)
    (hfind : findPipeline (firstToken content) stats = Except.ok (some p))
    (hdef : ∀ st ∈ p.stageStates.getD [], ∀ a ∈ st.actionStates.getD [],
      (a.latestExecution.bind (·.lastStatusChange)).isSome = true) :
    detailViewAfterSelect prevItems humanize stats content =
      (specDetailBlocks humanize p, none) := by
  unfold detailViewAfterSelect selectHandler
  rw [hfind]
  show renderStages humanize (p.stageStates.getD []) =
    (specDetailBlocks humanize p, none)
  rw [renderStages_defined humanize _ hdef]
  rfl

/-- A fully populated pipeline used to instantiate the detail-view
theorems. -/
def c7GoodPipeline : GetPipelineStateOutput :=
  { pipelineName := some "integration-y"
    stageStates := some
      [{ stageName := some "Build"
         latestExecution := some { status := "Succeeded" }
         actionStates := some
           [{ actionName := some "build"
              latestExecution := some
                { status := some "Succeeded", lastStatusChange := some 5 }
              revisionUrl := some "http://rev"
              entityUrl := none }] }] }

/-- C7 witness: the amended theorem applied to a concrete selection of a
fully populated pipeline. -/
theorem c7_witness :
    findPipeline (firstToken "integration-y") [c7GoodPipeline] =
      Except.ok (some c7GoodPipeline) ∧
    (∀ st ∈ c7GoodPipeline.stageStates.getD [],
       ∀ a ∈ st.actionStates.getD [],
         (a.latestExecution.bind (·.lastStatusChange)).isSome = true) ∧
    detailViewAfterSelect [] (fun _ => "now") [c7GoodPipeline]
        "integration-y" =
      (specDetailBlocks (fun _ => "now") c7GoodPipeline, none) :=
  ⟨rfl, by decide,
   c7_detail_view [] (fun _ => "now") [c7GoodPipeline] "integration-y"
     c7GoodPipeline rfl (by decide)⟩

/-! ## Claim C9: absent execution fields crash the detail view -/

/-- If some action of the list lacks its `latestExecution` or its
`lastStatusChange`, rendering the actions ends in a runtime error. -/
theorem renderActions_faulty (humanize : Nat → String)
    (stageName : Option String) (actions : List ActionState)
    (h : ∃ a ∈ actions,
      (a.latestExecution.bind (·.lastStatusChange)).isSome = false) :
    (renderActions humanize stageName actions).2.isSome = true := by
  induction actions with
  | nil => obtain ⟨a, ha, _⟩ := h; exact absurd ha (List.not_mem_nil a)
  | cons a rest ih =>
    cases hle : a.latestExecution with
    | none => simp [renderActions, hle]
    | some ex =>
      cases hts : ex.lastStatusChange with
      | none => simp [renderActions, hle, hts]
      | some t =>
        obtain ⟨b, hb, hfault⟩ := h
        rcases List.mem_cons.mp hb with rfl | hb
        · rw [hle] at hfault; simp [hts] at hfault
        · have hr := ih ⟨b, hb, hfault⟩
          simpa [renderActions, hle, hts] using hr

/-- If some action of some stage is faulty, the stage traversal ends in
a runtime error. -/
theorem renderStages_faulty (humanize : Nat → String)
    (stages : List StageState)
    (h : ∃ st ∈ stages, ∃ a ∈ st.actionStates.getD [],
      (a.latestExecution.bind (·.lastStatusChange)).isSome = false) :
    (renderStages humanize stages).2.isSome = true := by
  induction stages with
  | nil => obtain ⟨st, hst, _⟩ := h; exact absurd hst (List.not_mem_nil st)
  | cons st rest ih =>
    cases hr : (renderActions humanize st.stageName (st.actionStates.getD [])).2 with
    | some e => simp [renderStages, hr]
    | none =>
      obtain ⟨s, hs, hfault⟩ := h
      rcases List.mem_cons.mp hs with rfl | hs
      · have hf := renderActions_faulty humanize s.stageName _ hfault
        rw [hr] at hf
        simp at hf
      · have hrest := ih ⟨s, hs, hfault⟩
        simpa [renderStages, hr] using hrest

/-- C9: whenever the selected pipeline has an action with no
`latestExecution` or no `lastStatusChange`, the detail-view handler ends
in a runtime error instead of displaying a block with the field absent. -/
theorem c9_detail_crash (prevItems : List String) (humanize : Nat → String)
    (stats : List GetPipelineStateOutput) (content : String)
    (p : GetPipelineStateOutput)
    (hfind : findPipeline (firstToken content) stats = Except.ok (some p))
    (hfault : ∃ st ∈ p.stageStates.getD [], ∃ a ∈ st.actionStates.getD [],
      (a.latestExecution.bind (·.lastStatusChange)).isSome = false) :
    ((detailViewAfterSelect prevItems humanize stats content).2).isSome
      = true := by
  unfold detailViewAfterSelect selectHandler
  rw [hfind]
  exact renderStages_faulty humanize _ hfault

/-- C9 witness: the crash theorem applied to a concrete selection of a
pipeline whose action lacks `latestExecution`. -/
theorem c9_witness :
    findPipeline (firstToken "integration-x") [c7Pipeline] =
      Except.ok (some c7Pipeline) ∧
    (∃ st ∈ c7Pipeline.stageStates.getD [],
       ∃ a ∈ st.actionStates.getD [],
         (a.latestExecution.bind (·.lastStatusChange)).isSome = false) ∧
    ((detailViewAfterSelect [] (fun _ => "") [c7Pipeline]
        "integration-x").2).isSome = true :=
  ⟨rfl, by decide,
   c9_detail_crash [] (fun _ => "") [c7Pipeline] "integration-x"
     c7Pipeline rfl (by decide)⟩

/-! ## Claim C8: truncated display names and prefix lookup -/

/-- A stored snapshot whose name shares its first word with another. -/
def c8P1 : GetPipelineStateOutput :=
  { pipelineName := some "ab xy", stageStates := some [] }

/-- The snapshot the user selects: its displayed (truncated) name is
`ab cd`, a prefix of exactly one stored name — its own. -/
def c8P2 : GetPipelineStateOutput :=
  { pipelineName := some "ab cd", stageStates := some [] }

/-- C8, counterexample: the displayed text `ab cd` is a prefix of
exactly one stored name (that of `c8P2`), yet the lookup matches on the
first space-delimited token `ab` of the display text and returns `c8P1`
instead. -/
theorem c8_counterexample :
    (c8P2.pipelineName.map (fun n => n.take 30)).getD "" = "ab cd" ∧
    isPrefixList "ab cd".data ((c8P1.pipelineName.getD "").data) = false ∧
    isPrefixList "ab cd".data ((c8P2.pipelineName.getD "").data) = true ∧
    firstToken "ab cd" = "ab" ∧
    findPipeline (firstToken "ab cd") [c8P1, c8P2] =
      Except.ok (some c8P1) ∧
    c8P1 ≠ c8P2 := by
  refine ⟨by decide, by decide, by decide, by decide, by decide, by decide⟩

/-- If the first token of the display text is a prefix of exactly one
stored (present) pipeline name, the lookup returns that snapshot. -/
theorem findPipeline_unique (key : String)
    (stats : List GetPipelineStateOutput) (p : GetPipelineStateOutput)
    (hall : ∀ q ∈ stats, q.pipelineName.isSome = true)
    (hmem : p ∈ stats)
    (hpre : isPrefixList key.data ((p.pipelineName.getD "").data) = true)
    (huniq : ∀ q ∈ stats,
      isPrefixList key.data ((q.pipelineName.getD "").data) = true → q = p) :
    findPipeline key stats = Except.ok (some p) := by
  induction stats with
  | nil => exact absurd hmem (List.not_mem_nil p)
  | cons q rest ih =>
    have hq := hall q (List.mem_cons_self q rest)
    cases hqn : q.pipelineName with
    | none => rw [hqn] at hq; simp at hq
    | some n =>
      simp only [findPipeline, hqn]
      by_cases hmatch : isPrefixList key.data n.data = true
      · have hqp : q = p :=
          huniq q (List.mem_cons_self q rest) (by rw [hqn]; simpa using hmatch)
        simp [hmatch, hqp]
      · have hpq : p ≠ q := by
          intro hpq
          apply hmatch
          have hpn : p.pipelineName = some n := by rw [hpq, hqn]
          rw [hpn] at hpre
          simpa using hpre
        have hpm : p ∈ rest := by
          rcases List.mem_cons.mp hmem with rfl | hm
          · exact absurd rfl hpq
          · exact hm
        have hrec := ih (fun r hr => hall r (List.mem_cons_of_mem q hr)) hpm
          (fun r hr hp => huniq r (List.mem_cons_of_mem q hr) hp)
        simp [hmatch, hrec]

/-- C8 (amended): every populated summary row shows the pipeline name
truncated by `slice(0, 30)`, hence to at most 30 characters; and
whenever the FIRST SPACE-DELIMITED TOKEN of the selected row's display
text is a prefix of exactly one stored pipeline's (present) name, the
lookup returns that pipeline's snapshot.  (The code compares against
`content.split(" ")[0]`, not the whole displayed name.) -/
theorem c8_truncation_and_lookup :
    (∀ (mp : MappedPipeline) (stages : List MappedStage),
       mp.stages = some stages →
       summaryRow mp =
         [(mp.pipelineName.map (fun n => n.take 30)).getD "",
          colorizedStatus
            (jsSetOfList (stages.map (fun s => s.status.getD "")))] ∧
       ((mp.pipelineName.map (fun n => n.take 30)).getD "").length ≤ 30) ∧
    (∀ (stats : List GetPipelineStateOutput) (content : String)
       (p : GetPipelineStateOutput),
       (∀ q ∈ stats, q.pipelineName.isSome = true) →
       p ∈ stats →
       isPrefixList (firstToken content).data
         ((p.pipelineName.getD "").data) = true →
       (∀ q ∈ stats,
         isPrefixList (firstToken content).data
           ((q.pipelineName.getD "").data) = true → q = p) →
       findPipeline (firstToken content) stats = Except.ok (some p)) := by
  constructor
  · intro mp stages hs
    constructor
    · simp [summaryRow, hs]
    · cases hn : mp.pipelineName with
      | none => simp
      | some n =>
        simp only [hn, Option.map_some', Option.getD_some]
        have hdata : (n.take 30).data = n.data.take 30 :=
          String.data_take n 30
        have hlen : (n.take 30).length = (n.data.take 30).length := by
          rw [String.length, hdata]
        rw [hlen, List.length_take]
        exact Nat.min_le_left _ _
  · intro stats content p hall hmem hpre huniq
    exact findPipeline_unique (firstToken content) stats p hall hmem hpre huniq

/-- A stored snapshot whose name the selected row's token uniquely
prefixes. -/
def c8Q1 : GetPipelineStateOutput :=
  { pipelineName := some "integration-a", stageStates := some [] }

/-- A second stored snapshot whose name does not start with the token. -/
def c8Q2 : GetPipelineStateOutput :=
  { pipelineName := some "other-c", stageStates := some [] }

/-- C8 witness: the truncation bound discharged on a concrete populated
row, and the lookup theorem applied at a store of two named snapshots
where the row text's first token `integration-a` is a prefix of exactly
one stored name — every hypothesis holds and the lookup returns that
snapshot. -/
theorem c8_witness :
    (({ pipelineName := some "integration-a", stages := some [] } :
        MappedPipeline).stages = some ([] : List MappedStage)) ∧
    (summaryRow { pipelineName := some "integration-a", stages := some [] } =
       [((some "integration-a" : Option String).map
           (fun n => n.take 30)).getD "",
        colorizedStatus (jsSetOfList (([] : List MappedStage).map
          (fun s => s.status.getD "")))] ∧
     (((some "integration-a" : Option String).map
         (fun n => n.take 30)).getD "").length ≤ 30) ∧
    (∀ q ∈ [c8Q1, c8Q2], q.pipelineName.isSome = true) ∧
    c8Q1 ∈ [c8Q1, c8Q2] ∧
    isPrefixList (firstToken "integration-a Succeeded").data
      ((c8Q1.pipelineName.getD "").data) = true ∧
    (∀ q ∈ [c8Q1, c8Q2],
      isPrefixList (firstToken "integration-a Succeeded").data
        ((q.pipelineName.getD "").data) = true → q = c8Q1) ∧
    findPipeline (firstToken "integration-a Succeeded") [c8Q1, c8Q2] =
      Except.ok (some c8Q1) :=
  ⟨rfl, c8_truncation_and_lookup.1 _ [] rfl, by decide, by decide, by decide,
   by decide,
   c8_truncation_and_lookup.2 [c8Q1, c8Q2] "integration-a Succeeded" c8Q1
     (by decide) (by decide) (by decide) (by decide)⟩

/-! ## Claim C10: a fetched pipeline with no stages field -/

/-- C10: a fetched pipeline whose `stageStates` field is absent still
occupies its slot in the published summary data, as an empty row. -/
theorem c10_absent_stages_empty_row (humanize : Nat → String)
    (ps : List GetPipelineStateOutput) (i : Nat)
    (p : GetPipelineStateOutput) (hp : ps[i]? = some p)
    (habs : p.stageStates = none) :
    (statsRows humanize ps).length = ps.length ∧
    (statsRows humanize ps)[i]? = some [] := by
  constructor
  · simp [statsRows]
  · have hmap : (statsRows humanize ps)[i]? =
        (ps[i]?).map (fun q => summaryRow (mapPipeline humanize q)) := by
      simp [statsRows]
    rw [hmap, hp]
    simp [summaryRow, mapPipeline, habs]

/-- C10 witness: the empty-row theorem applied to a concrete list whose
second pipeline lacks `stageStates`. -/
theorem c10_witness :
    (([{ pipelineName := some "integration-a", stageStates := some [] },
       { pipelineName := some "integration-b", stageStates := none }] :
        List GetPipelineStateOutput)[1]? =
      some { pipelineName := some "integration-b", stageStates := none }) ∧
    (statsRows (fun _ => "")
      [{ pipelineName := some "integration-a", stageStates := some [] },
       { pipelineName := some "integration-b",
         stageStates := none }]).length = 2 ∧
    (statsRows (fun _ => "")
      [{ pipelineName := some "integration-a", stageStates := some [] },
       { pipelineName := some "integration-b",
         stageStates := none }])[1]? = some [] := by
  have h := c10_absent_stages_empty_row (fun _ => "")
    [{ pipelineName := some "integration-a", stageStates := some [] },
     { pipelineName := some "integration-b", stageStates := none }] 1
    { pipelineName := some "integration-b", stageStates := none }
    (by decide) rfl
  exact ⟨by decide, h.1, h.2⟩
